import Mathlib

/-!
Verification of the continuous voice-capture pipeline of
`src/core/voice_recognizer.py` (classes `VoiceRecognizer` and
`ContinuousVoiceRecognizer`).

Audio samples are modelled as rationals (the Python code uses float32
arrays); frame energies `sqrt(mean(sample^2))` are compared against
thresholds through the mathematically equivalent squared comparisons, and
bridge lemmas relate the boolean classifiers to the literal `Real.sqrt`
formulations.

Two layers are embedded:

1. `dynLoop` / `dynamicRecord`: the read loop of
   `ContinuousVoiceRecognizer._dynamic_record` (lines 514-576), as a
   function of the sequence of chunks the stream delivers and of the
   value of the `is_monitoring` flag at each loop-head check.

2. `cstep` / `runTrace`: an interleaving small-step model of the session:
   the monitor callback of `_continuous_monitor` (lines 426-452), the
   worker `_auto_record_and_recognize` (lines 471-512), and the
   `start_continuous_recognition` / `stop_recognition` entry points.
   Long-running worker actions (the dynamic recording, the blocking
   transcription) are events carrying their results; the instantaneous
   statements that follow them in the Python code are folded into the
   handling of those events.  The `finally` block's
   `self.is_auto_recording = False` is folded into the event that makes
   the worker enter its cooldown sleep, preserving the source's order:
   the flag is cleared before the `time.sleep(self.cooldown_time)`.
-/

/-- Frame energy squared: `mean(sample^2)` for one audio chunk
(`np.mean(audio_chunk ** 2)` in the source; the code compares
`np.sqrt` of this against thresholds). -/
def energySq (f : List ℚ) : ℚ :=
  (f.map (fun s => s * s)).sum / (f.length : ℚ)

/-- Voiced-frame test of the monitor callback:
`energy > self.vad_threshold` with `energy = sqrt (energySq f)`.
Encoded by the equivalent squared comparison; `isVoiced_iff` proves the
encoding equals the literal square-root comparison. -/
def isVoiced (thr : ℚ) (f : List ℚ) : Bool :=
  decide (thr < 0 ∨ thr * thr < energySq f)

/-- Silent-chunk test of the dynamic recorder:
`energy < self.vad_threshold * 0.3` with `energy = sqrt (energySq f)`.
Encoded by the equivalent squared comparison; `isSilentChunk_iff` proves
the encoding equals the literal square-root comparison. -/
def isSilentChunk (thr : ℚ) (f : List ℚ) : Bool :=
  decide (0 < thr ∧ energySq f < thr * thr)

/-- Configuration snapshot used by `_dynamic_record`
(`_load_continuous_params`, lines 377-393): `vad_threshold`,
`min_recording_duration`, `max_recording_duration`,
`silence_duration_to_stop`, and the duration of one chunk
(`chunk_size / self.sample_rate`, i.e. `1024 / 16000` at the defaults). -/
structure RecParams where
  vadThr : ℚ
  minDur : ℚ
  maxDur : ℚ
  silStop : ℚ
  chunkDur : ℚ
deriving DecidableEq

/-- Loop state of `_dynamic_record`: the buffered chunks, the accumulated
`recording_time`, and the consecutive-silence accumulator `silence_time`. -/
structure RecState where
  buffer : List (List ℚ)
  recTime : ℚ
  silTime : ℚ
deriving DecidableEq

/-- One iteration body of the `_dynamic_record` read loop (lines 538-553):
append the chunk, advance `recording_time` by one chunk duration, and
update `silence_time` (incremented on a silent chunk — stricter threshold
`vad_threshold * 0.3` — reset to zero otherwise). -/
def dynStep (P : RecParams) (st : RecState) (f : List ℚ) : RecState :=
  { buffer := st.buffer ++ [f]
    recTime := st.recTime + P.chunkDur
    silTime :=
      if isSilentChunk (P.vadThr * (3 / 10)) f then st.silTime + P.chunkDur
      else 0 }

/-- Early-stop test of `_dynamic_record` (lines 556-559), evaluated after
each chunk on the just-updated state. -/
def breakNow (P : RecParams) (st : RecState) : Bool :=
  decide (P.minDur ≤ st.recTime ∧ P.silStop ≤ st.silTime)

/-- The read loop of `_dynamic_record` (lines 536-563).  `frames` is the
sequence of chunks the input stream delivers (the i-th `stream.read`
returns `frames[i]`); `mon i` is the value of `self.is_monitoring` at the
i-th loop-head check.  The loop head requires
`recording_time < max_recording_duration and is_monitoring`; after
processing a chunk the loop breaks when `breakNow` holds. -/
def dynLoop (P : RecParams) (mon : ℕ → Bool) :
    List (List ℚ) → ℕ → RecState → RecState
  | [], _, st => st
  | f :: rest, i, st =>
    if st.recTime < P.maxDur ∧ mon i = true then
      if breakNow P (dynStep P st f) then dynStep P st f
      else dynLoop P mon rest (i + 1) (dynStep P st f)
    else st

/-- Number of chunks the read loop consumes, mirroring `dynLoop`. -/
def readLen (P : RecParams) (mon : ℕ → Bool) :
    List (List ℚ) → ℕ → RecState → ℕ
  | [], _, _ => 0
  | f :: rest, i, st =>
    if st.recTime < P.maxDur ∧ mon i = true then
      if breakNow P (dynStep P st f) then 1
      else readLen P mon rest (i + 1) (dynStep P st f) + 1
    else 0

/-- Initial loop state of `_dynamic_record`: empty buffer,
`recording_time = 0.0`, `silence_time = 0.0`. -/
def initRecState : RecState := ⟨[], 0, 0⟩

/-- `_dynamic_record` (lines 514-576): run the read loop from the empty
state; a non-empty buffer is concatenated into one utterance, an empty
buffer yields `None`. -/
def dynamicRecord (P : RecParams) (mon : ℕ → Bool) (frames : List (List ℚ)) :
    Option (List ℚ) :=
  let st := dynLoop P mon frames 0 initRecState
  if st.buffer.isEmpty then none else some st.buffer.flatten

/-- The final `recording_time` of a `_dynamic_record` run (the recorded
duration the source logs as the utterance's actual length). -/
def recordedDuration (P : RecParams) (mon : ℕ → Bool)
    (frames : List (List ℚ)) : ℚ :=
  (dynLoop P mon frames 0 initRecState).recTime

/-- State of the loop after the first `n` delivered chunks have been
processed (prefix fold of the loop body). -/
def stateAfter (P : RecParams) (frames : List (List ℚ)) (n : ℕ) : RecState :=
  (frames.take n).foldl (dynStep P) initRecState

/-- Stop condition of the dynamic recorder at chunk boundary `j`, the
disjunction the specification lists: `recording_time` reached
`max_recording_duration`, or the cancellation (monitoring) flag is
cleared, or the minimum duration is reached and the consecutive silence
reached `silence_duration_to_stop`. -/
def stopAt (P : RecParams) (mon : ℕ → Bool) (frames : List (List ℚ))
    (j : ℕ) : Prop :=
  P.maxDur ≤ (stateAfter P frames j).recTime ∨ mon j = false ∨
    (P.minDur ≤ (stateAfter P frames j).recTime ∧
      P.silStop ≤ (stateAfter P frames j).silTime)

/-- Arithmetic mean of the samples (`audio_data.mean()` in
`_preprocess_audio_fast`). -/
def listMean (a : List ℚ) : ℚ := a.sum / (a.length : ℚ)

/-- Peak absolute amplitude (`np.max(np.abs(audio_data))`), folded over the
list with base 0 (all absolute values are nonnegative, so for the
non-empty lists the source applies it to this equals the maximum). -/
def maxAbs (a : List ℚ) : ℚ := (a.map (fun x => |x|)).foldl max 0

/-- `VoiceRecognizer._preprocess_audio_fast` (lines 265-293): an empty or
all-zero array short-circuits to one second of zeros
(`np.zeros(self.sample_rate)`); otherwise the DC component (mean) is
removed and, when the peak amplitude is positive, the signal is scaled by
`0.6 / max_amplitude`.  The float32 cast of the source is not modelled
(samples are exact rationals). -/
def preprocessAudioFast (sampleRate : ℕ) (audio : List ℚ) : List ℚ :=
  if audio.length = 0 ∨ audio.all (fun x => decide (x = 0)) then
    List.replicate sampleRate 0
  else
    let centered := audio.map (fun x => x - listMean audio)
    let maxAmp := maxAbs centered
    if 0 < maxAmp then centered.map (fun x => x * (3 / 5 / maxAmp))
    else centered

/-- Environment observed by `VoiceRecognizer._setup_audio_device`
(lines 62-108): the enumerated devices (their `max_input_channels`), the
configured `input_device_id` (`none`: not configured; `some none`:
configured but not parseable as an int, the `ValueError` branch;
`some (some c)`: parsed value `c`), and the platform default input device
(`sd.default.device`, input component, or the exception branch). -/
structure DeviceEnv where
  devices : List ℕ
  configured : Option (Option ℤ)
  defaultDev : Except Unit ℤ

/-- Indices of devices with `max_input_channels > 0` (the list
`input_devices` of the source). -/
def inputDevices (devices : List ℕ) : List ℕ :=
  (List.range devices.length).filter (fun i => decide (0 < devices.getD i 0))

/-- `VoiceRecognizer._setup_audio_device` (lines 62-108): no enumerable
input device leaves `input_device_id = None`; a configured, parseable id
that is enumerable wins; otherwise the platform default input device if
enumerable; otherwise the first enumerable input device. -/
def setupAudioDevice (env : DeviceEnv) : Option ℤ :=
  let ins := (inputDevices env.devices).map Int.ofNat
  if ins.isEmpty then none
  else
    let afterConfigured : Option ℤ :=
      match env.defaultDev with
      | .ok d => if d ∈ ins then some d else ins.head?
      | .error _ => ins.head?
    match env.configured with
    | some (some c) => if c ∈ ins then some c else afterConfigured
    | _ => afterConfigured

/-- Modelled from the spec (section 4.5), for the refinement comparison of
claim C8: the selection chain in the spec's words — the user-configured id
if currently enumerable, otherwise the platform default input device if
enumerable, otherwise the first enumerable input device, otherwise none. -/
def specDeviceSelection (env : DeviceEnv) : Option ℤ :=
  let ins := (inputDevices env.devices).map Int.ofNat
  let configuredChoice : Option ℤ :=
    match env.configured with
    | some (some c) => if c ∈ ins then some c else none
    | _ => none
  let defaultChoice : Option ℤ :=
    match env.defaultDev with
    | .ok d => if d ∈ ins then some d else none
    | .error _ => none
  match configuredChoice with
  | some c => some c
  | none =>
    match defaultChoice with
    | some d => some d
    | none => ins.head?

/-- Phase of one `_auto_record_and_recognize` worker thread:
`recording` — inside `_dynamic_record`; `transcribing` — past the
post-recording checks, inside the blocking `_recognize_audio` call;
`sleeping` — in the `finally` block's `time.sleep(self.cooldown_time)`
with `is_auto_recording` already cleared; `dead` — thread finished. -/
inductive WPhase
  | recording
  | transcribing
  | sleeping
  | dead
deriving DecidableEq

/-- Collaborator/configuration snapshot for the session trace model:
the VAD threshold, the resolved input device, whether LLM optimization is
enabled and its outcome per text (`_optimize_text_with_llm`, with the
missing-library / missing-key / API-exception branches folded into
`.error`), whether the local punctuation processor is importable and its
outcome per text, and whether a result callback is registered. -/
structure TraceCfg where
  vadThr : ℚ
  deviceId : Option ℤ
  llmEnabled : Bool
  llm : String → Except Unit String
  localPunctAvailable : Bool
  punct : String → Except Unit String
  hasCallback : Bool

/-- Session state of `ContinuousVoiceRecognizer`: the `is_monitoring` and
`is_auto_recording` flags, the inherited `is_recording` flag of the base
class, the spawned workers in spawn order, the number of recorder input
streams opened, the number of utterances handed to `_recognize_audio`
(each such hand-off invokes the transcription engine), the texts delivered
to the result callback in order, and the number of monitor threads
started. -/
structure CState where
  isMonitoring : Bool
  isAutoRecording : Bool
  isRecording : Bool
  workers : List WPhase
  streams : ℕ
  utterances : ℕ
  fired : List String
  monitorThreads : ℕ
deriving DecidableEq

/-- `_optimize_text_with_llm` (lines 295-337): any failure (library or key
missing, API exception) returns the input text unchanged. -/
def optimizeTextWithLlm (llm : String → Except Unit String) (t : String) :
    String :=
  match llm t with
  | .ok r => r
  | .error _ => t

/-- `_add_local_punctuation` (lines 339-354): an exception in the local
processor returns the input text unchanged. -/
def addLocalPunctuation (punct : String → Except Unit String) (t : String) :
    String :=
  match punct t with
  | .ok r => r
  | .error _ => t

/-- Text delivered to the callback for a non-empty transcript `t`
(lines 498-505): LLM optimization when enabled, else local punctuation
when available, else the raw transcript. -/
def finalText (cfg : TraceCfg) (t : String) : String :=
  if cfg.llmEnabled then optimizeTextWithLlm cfg.llm t
  else if cfg.localPunctAvailable then addLocalPunctuation cfg.punct t
  else t

/-- Events of the session trace: a frame delivered to the monitor stream's
`audio_callback`; worker `i` returning from `_dynamic_record` with its
result; worker `i` returning from the blocking `_recognize_audio` (`.ok`
with the transcript, `.error` when the engine raised); worker `i`'s
cooldown sleep elapsing (thread death); `stop_recognition`;
`start_continuous_recognition`. -/
inductive CEv
  | monFrame (f : List ℚ)
  | recDone (i : ℕ) (audio : Option (List ℚ))
  | transDone (i : ℕ) (r : Except Unit String)
  | wake (i : ℕ)
  | toggleOff
  | toggleOn

/-- Test used to state that a trace contains no restart. -/
def isToggleOn : CEv → Bool
  | .toggleOn => true
  | _ => false

/-- Worker `i` reaches the `finally` block (lines 509-512): it clears
`is_auto_recording` and starts the cooldown sleep. -/
def finishWorker (s : CState) (i : ℕ) : CState :=
  { s with isAutoRecording := false, workers := s.workers.set i .sleeping }

/-- One interleaving step of the session.
`monFrame` is `audio_callback` (lines 426-452): on a voiced frame, when
neither `is_auto_recording` nor `is_recording` is set, it sets
`is_auto_recording` and spawns a worker; the spawned worker's immediate
device check (lines 475-477) is folded in — with no device it goes
straight to its `finally` block and never opens a recorder stream, with a
device it enters `_dynamic_record`, which opens one.
`recDone` resumes the worker after `_dynamic_record` (lines 486-496): an
empty result or a cleared `is_monitoring` flag discards the utterance;
otherwise the utterance is handed to `_recognize_audio`.
`transDone` resumes it after transcription: an engine exception was
already caught inside `_recognize_audio` and turned into the empty
string; a non-empty transcript with a registered callback is refined by
`finalText` and delivered; all paths then reach the `finally` block.
`wake` ends the cooldown sleep.  `toggleOff` is `stop_recognition`
(lines 413-419); `toggleOn` is `start_continuous_recognition`
(lines 401-411), a no-op while already monitoring. -/
def cstep (cfg : TraceCfg) (s : CState) : CEv → CState
  | .monFrame f =>
    if isVoiced cfg.vadThr f = true ∧ s.isAutoRecording = false ∧
        s.isRecording = false then
      match cfg.deviceId with
      | some _ =>
        { s with isAutoRecording := true,
                 workers := s.workers ++ [.recording],
                 streams := s.streams + 1 }
      | none => { s with workers := s.workers ++ [.sleeping] }
    else s
  | .recDone i audio =>
    match s.workers.get? i with
    | some .recording =>
      match audio with
      | some a =>
        if a.length ≠ 0 ∧ s.isMonitoring = true then
          { s with workers := s.workers.set i .transcribing,
                   utterances := s.utterances + 1 }
        else finishWorker s i
      | none => finishWorker s i
    | _ => s
  | .transDone i r =>
    match s.workers.get? i with
    | some .transcribing =>
      let text := match r with | .ok t => t | .error _ => ""
      if text ≠ "" ∧ cfg.hasCallback = true then
        finishWorker { s with fired := s.fired ++ [finalText cfg text] } i
      else finishWorker s i
    | _ => s
  | .wake i =>
    if s.workers.get? i = some WPhase.sleeping then
      { s with workers := s.workers.set i .dead }
    else s
  | .toggleOff => { s with isMonitoring := false, isAutoRecording := false }
  | .toggleOn =>
    if s.isMonitoring = true then s
    else { s with isMonitoring := true,
                  monitorThreads := s.monitorThreads + 1 }

/-- Run a sequence of session events. -/
def runTrace (cfg : TraceCfg) (s : CState) (evs : List CEv) : CState :=
  evs.foldl (cstep cfg) s

/-- Session state right after a successful
`start_continuous_recognition`: monitoring, no recording in flight, no
workers, one monitor thread. -/
def initCState : CState := ⟨true, false, false, [], 0, 0, [], 1⟩

/-- Default recorder parameters of `_load_continuous_params`:
`vad_threshold = 0.020`, `min_recording_duration = 0.5`,
`max_recording_duration = min(2.5, 10.0)`,
`silence_duration_to_stop = 0.8`, chunk duration `1024 / 16000`. -/
def P0 : RecParams := ⟨1 / 50, 1 / 2, 5 / 2, 4 / 5, 8 / 125⟩

/-- A small recorder configuration (legal per the config surface:
`auto_recording_duration = 0.05` gives `max_recording_duration = 0.05`)
used to instantiate hypotheses cheaply. -/
def P1 : RecParams := ⟨1 / 50, 0, 1 / 20, 4 / 5, 1 / 16⟩

/-- A chunk whose constant sample 0.05 puts its energy above the default
VAD threshold 0.02 (and above the silent threshold 0.006). -/
def voicedChunk : List ℚ := [1 / 20]

/-- Trace configuration with a resolved device, refinement disabled and a
registered callback. -/
def cfgA : TraceCfg :=
  ⟨1 / 50, some 0, false, fun t => .ok t, false, fun t => .ok t, true⟩

/-- Trace configuration identical to `cfgA` but with no resolved input
device (`_setup_audio_device` found none). -/
def cfgNoDevice : TraceCfg :=
  ⟨1 / 50, none, false, fun t => .ok t, false, fun t => .ok t, true⟩

/-! Helper lemmas: energy bridges and recorder loop characterization. -/

theorem energySq_nonneg (f : List ℚ) : 0 ≤ energySq f := by
  unfold energySq
  apply div_nonneg
  · apply List.sum_nonneg
    intro x hx
    obtain ⟨s, _, rfl⟩ := List.mem_map.mp hx
    exact mul_self_nonneg s
  · exact_mod_cast Nat.zero_le _

theorem isVoiced_iff (thr : ℚ) (f : List ℚ) :
    isVoiced thr f = true ↔ (thr : ℝ) < Real.sqrt (energySq f) := by
  unfold isVoiced
  rw [decide_eq_true_eq]
  constructor
  · rintro (h | h)
    · exact lt_of_lt_of_le (by exact_mod_cast h) (Real.sqrt_nonneg _)
    · rcases lt_or_le thr 0 with h0 | h0
      · exact lt_of_lt_of_le (by exact_mod_cast h0) (Real.sqrt_nonneg _)
      · rw [Real.lt_sqrt (by exact_mod_cast h0)]
        have hsq : ((thr : ℝ)) ^ 2 = ((thr * thr : ℚ) : ℝ) := by
          push_cast; ring
        rw [hsq]
        exact_mod_cast h
  · intro h
    rcases lt_or_le thr 0 with h0 | h0
    · exact Or.inl h0
    · right
      have h2 := (Real.lt_sqrt (by exact_mod_cast h0)).mp h
      have hsq : ((thr : ℝ)) ^ 2 = ((thr * thr : ℚ) : ℝ) := by
        push_cast; ring
      rw [hsq] at h2
      exact_mod_cast h2

theorem isSilentChunk_iff (thr : ℚ) (f : List ℚ) :
    isSilentChunk thr f = true ↔ Real.sqrt (energySq f) < (thr : ℝ) := by
  unfold isSilentChunk
  rw [decide_eq_true_eq]
  constructor
  · rintro ⟨h0, h⟩
    rw [Real.sqrt_lt' (by exact_mod_cast h0)]
    have hsq : ((thr : ℝ)) ^ 2 = ((thr * thr : ℚ) : ℝ) := by
      push_cast; ring
    rw [hsq]
    exact_mod_cast h
  · intro h
    have h0 : (0 : ℝ) < (thr : ℝ) := lt_of_le_of_lt (Real.sqrt_nonneg _) h
    have h0q : (0 : ℚ) < thr := by exact_mod_cast h0
    refine ⟨h0q, ?_⟩
    have h2 := (Real.sqrt_lt' h0).mp h
    have hsq : ((thr : ℝ)) ^ 2 = ((thr * thr : ℚ) : ℝ) := by
      push_cast; ring
    rw [hsq] at h2
    exact_mod_cast h2

theorem foldl_dynStep_recTime (P : RecParams) (l : List (List ℚ)) :
    ∀ st : RecState,
      (l.foldl (dynStep P) st).recTime = st.recTime + l.length * P.chunkDur := by
  induction l with
  | nil => intro st; simp
  | cons f rest ih =>
    intro st
    rw [List.foldl_cons, ih (dynStep P st f)]
    simp only [dynStep, List.length_cons]
    push_cast
    ring

theorem foldl_dynStep_buffer (P : RecParams) (l : List (List ℚ)) :
    ∀ st : RecState, (l.foldl (dynStep P) st).buffer = st.buffer ++ l := by
  induction l with
  | nil => intro st; simp
  | cons f rest ih =>
    intro st
    rw [List.foldl_cons, ih (dynStep P st f)]
    simp [dynStep]

theorem dynLoop_eq_take (P : RecParams) (mon : ℕ → Bool)
    (frames : List (List ℚ)) :
    ∀ (i : ℕ) (st : RecState),
      dynLoop P mon frames i st =
        (frames.take (readLen P mon frames i st)).foldl (dynStep P) st := by
  induction frames with
  | nil => intro i st; simp [dynLoop, readLen]
  | cons f rest ih =>
    intro i st
    by_cases hg : st.recTime < P.maxDur ∧ mon i = true
    · by_cases hb : breakNow P (dynStep P st f) = true
      · simp [dynLoop, readLen, hg, hb]
      · simp only [dynLoop, readLen, if_pos hg, hb, if_false,
          Bool.false_eq_true, List.take_succ_cons, List.foldl_cons]
        exact ih (i + 1) (dynStep P st f)
    · simp [dynLoop, readLen, hg]

theorem readLen_le_length (P : RecParams) (mon : ℕ → Bool)
    (frames : List (List ℚ)) :
    ∀ (i : ℕ) (st : RecState), readLen P mon frames i st ≤ frames.length := by
  induction frames with
  | nil => intro i st; simp [readLen]
  | cons f rest ih =>
    intro i st
    by_cases hg : st.recTime < P.maxDur ∧ mon i = true
    · by_cases hb : breakNow P (dynStep P st f) = true
      · simp [readLen, hg, hb]
      · simp only [readLen, if_pos hg, hb, if_false, Bool.false_eq_true,
          List.length_cons]
        have := ih (i + 1) (dynStep P st f)
        omega
    · simp [readLen, hg]

theorem readLen_cont (P : RecParams) (mon : ℕ → Bool)
    (frames : List (List ℚ)) :
    ∀ (i : ℕ) (st : RecState) (j : ℕ), j < readLen P mon frames i st →
      ((frames.take j).foldl (dynStep P) st).recTime < P.maxDur ∧
      mon (i + j) = true ∧
      (j = 0 ∨ breakNow P ((frames.take j).foldl (dynStep P) st) = false) := by
  induction frames with
  | nil => intro i st j hj; simp [readLen] at hj
  | cons f rest ih =>
    intro i st j hj
    by_cases hg : st.recTime < P.maxDur ∧ mon i = true
    · by_cases hb : breakNow P (dynStep P st f) = true
      · simp only [readLen, if_pos hg, hb, if_true] at hj
        have hj0 : j = 0 := by omega
        subst hj0
        simp only [List.take_zero, List.foldl_nil, Nat.add_zero]
        exact ⟨hg.1, hg.2, Or.inl trivial⟩
      · simp only [readLen, if_pos hg, hb, if_false, Bool.false_eq_true] at hj
        cases j with
        | zero =>
          simp only [List.take_zero, List.foldl_nil, Nat.add_zero]
          exact ⟨hg.1, hg.2, Or.inl trivial⟩
        | succ j' =>
          have hj' : j' < readLen P mon rest (i + 1) (dynStep P st f) := by
            omega
          have h3 := ih (i + 1) (dynStep P st f) j' hj'
          rw [List.take_succ_cons, List.foldl_cons]
          refine ⟨h3.1, ?_, ?_⟩
          · have hadd : i + (j' + 1) = i + 1 + j' := by omega
            rw [hadd]
            exact h3.2.1
          · rcases h3.2.2 with h0 | hbf
            · subst h0
              right
              simp only [List.take_zero, List.foldl_nil]
              exact Bool.eq_false_iff.mpr hb
            · exact Or.inr hbf
    · simp [readLen, hg] at hj

theorem readLen_stop (P : RecParams) (mon : ℕ → Bool)
    (frames : List (List ℚ)) :
    ∀ (i : ℕ) (st : RecState), readLen P mon frames i st < frames.length →
      ¬(((frames.take (readLen P mon frames i st)).foldl
            (dynStep P) st).recTime < P.maxDur ∧
          mon (i + readLen P mon frames i st) = true) ∨
      (0 < readLen P mon frames i st ∧
        breakNow P ((frames.take (readLen P mon frames i st)).foldl
          (dynStep P) st) = true) := by
  induction frames with
  | nil => intro i st h; simp [readLen] at h
  | cons f rest ih =>
    intro i st h
    by_cases hg : st.recTime < P.maxDur ∧ mon i = true
    · by_cases hb : breakNow P (dynStep P st f) = true
      · right
        simp only [readLen, if_pos hg, hb, if_true]
        constructor
        · omega
        · simpa using hb
      · simp only [readLen, if_pos hg, hb, if_false, Bool.false_eq_true] at h ⊢
        have hr : readLen P mon rest (i + 1) (dynStep P st f) < rest.length := by
          simp only [List.length_cons] at h
          omega
        have h3 := ih (i + 1) (dynStep P st f) hr
        rw [List.take_succ_cons, List.foldl_cons]
        rcases h3 with hL | ⟨hpos, hbk⟩
        · left
          have hadd : i + (readLen P mon rest (i + 1) (dynStep P st f) + 1) =
              i + 1 + readLen P mon rest (i + 1) (dynStep P st f) := by omega
          rw [hadd]
          exact hL
        · right
          exact ⟨by omega, hbk⟩
    · left
      simp only [readLen, if_neg hg, List.take_zero, List.foldl_nil,
        Nat.add_zero]
      exact hg

theorem take_foldl_recTime (P : RecParams) (frames : List (List ℚ)) :
    ∀ n ≤ frames.length,
      ((frames.take n).foldl (dynStep P) initRecState).recTime =
        (n : ℚ) * P.chunkDur := by
  intro n hn
  rw [foldl_dynStep_recTime]
  show initRecState.recTime + ((frames.take n).length : ℚ) * P.chunkDur = _
  rw [List.length_take, min_eq_left hn]
  simp [initRecState]

/-- C2 (confirmed): the dynamic recorder stops reading frames exactly when
`recording_time ≥ max_recording_duration`, or
`recording_time ≥ min_recording_duration` and the accumulated
consecutive-silence time reached `silence_duration_to_stop`, or the
external cancellation (monitoring) flag is cleared — and keeps reading
while none of these holds; a chunk counts as silent iff its energy
`sqrt(mean(sample^2))` is strictly below `vad_threshold * 0.3`, and the
silence accumulator resets to zero on any chunk at or above that stricter
threshold. -/
theorem c2_dynamic_stop_exact (P : RecParams) (mon : ℕ → Bool)
    (frames : List (List ℚ)) (hsil : 0 < P.silStop) :
    dynLoop P mon frames 0 initRecState =
        stateAfter P frames (readLen P mon frames 0 initRecState) ∧
    (dynLoop P mon frames 0 initRecState).buffer =
        frames.take (readLen P mon frames 0 initRecState) ∧
    readLen P mon frames 0 initRecState ≤ frames.length ∧
    (∀ j < readLen P mon frames 0 initRecState, ¬ stopAt P mon frames j) ∧
    (readLen P mon frames 0 initRecState < frames.length →
        stopAt P mon frames (readLen P mon frames 0 initRecState)) ∧
    (∀ (st : RecState) (f : List ℚ),
      (Real.sqrt (energySq f) < (P.vadThr : ℝ) * (3 / 10) →
        (dynStep P st f).silTime = st.silTime + P.chunkDur) ∧
      ((P.vadThr : ℝ) * (3 / 10) ≤ Real.sqrt (energySq f) →
        (dynStep P st f).silTime = 0)) := by
  have h1 := dynLoop_eq_take P mon frames 0 initRecState
  have hcast : ((P.vadThr * (3 / 10) : ℚ) : ℝ) = (P.vadThr : ℝ) * (3 / 10) := by
    push_cast
    ring
  refine ⟨h1, ?_, readLen_le_length P mon frames 0 initRecState, ?_, ?_, ?_⟩
  · rw [h1, foldl_dynStep_buffer]
    simp [initRecState]
  · intro j hj
    have h3 := readLen_cont P mon frames 0 initRecState j hj
    rw [Nat.zero_add] at h3
    unfold stopAt stateAfter
    rintro (hmax | hmonf | ⟨hmin, hsil2⟩)
    · exact absurd h3.1 (not_lt.mpr hmax)
    · rw [h3.2.1] at hmonf
      cases hmonf
    · rcases h3.2.2 with h0 | hbf
      · subst h0
        simp only [List.take_zero, List.foldl_nil, initRecState] at hsil2
        exact absurd hsil2 (not_le.mpr hsil)
      · exact absurd (of_decide_eq_false hbf) (fun hnot => hnot ⟨hmin, hsil2⟩)
  · intro hlt
    have h4 := readLen_stop P mon frames 0 initRecState hlt
    rw [Nat.zero_add] at h4
    unfold stopAt stateAfter
    rcases h4 with hL | ⟨_, hbk⟩
    · rcases not_and_or.mp hL with hrt | hmonf
      · exact Or.inl (not_lt.mp hrt)
      · exact Or.inr (Or.inl (Bool.not_eq_true _ ▸ hmonf))
    · exact Or.inr (Or.inr (of_decide_eq_true hbk))
  · intro st f
    constructor
    · intro hltE
      have hS : isSilentChunk (P.vadThr * (3 / 10)) f = true :=
        (isSilentChunk_iff _ f).mpr (by rw [hcast]; exact hltE)
      simp [dynStep, hS]
    · intro hgeE
      have hS : isSilentChunk (P.vadThr * (3 / 10)) f = false := by
        rw [Bool.eq_false_iff]
        intro htrue
        have := (isSilentChunk_iff _ f).mp htrue
        rw [hcast] at this
        exact absurd this (not_lt.mpr hgeE)
      simp [dynStep, hS]

theorem c2_witness :
    (dynLoop P0 (fun _ => true) [voicedChunk] 0 initRecState).buffer =
      [voicedChunk].take (readLen P0 (fun _ => true) [voicedChunk] 0
        initRecState) :=
  (c2_dynamic_stop_exact P0 (fun _ => true) [voicedChunk]
    (by norm_num [P0])).2.1

set_option maxRecDepth 100000 in
set_option maxHeartbeats 1000000 in
/-- C1 (corrected): two counterexamples to the claimed invariant
`min_recording_duration ≤ duration ≤ max_recording_duration` for captured
utterances.  First, the upper bound fails with the cancellation flag never
cleared: at the default configuration (`max_recording_duration = 2.5 s`,
chunk duration `0.064 s`), 40 consecutive voiced chunks yield a captured
utterance of duration `2.56 s > 2.5 s` — the loop head admits a 40th read
at `recording_time = 2.496 < 2.5` and the full chunk is then appended.
Second, the lower bound fails when the flag is cleared mid-recording
(the claim asserts the bounds "regardless of when the cancellation flag
is cleared"): clearing the flag after the first loop-head check ends the
capture with one buffered chunk, a captured utterance of duration
`0.064 s < 0.5 s = min_recording_duration`. -/
theorem c1_counterexample :
    ((dynamicRecord P0 (fun _ => true)
        (List.replicate 40 voicedChunk)).isSome = true ∧
      ¬(P0.minDur ≤
          recordedDuration P0 (fun _ => true)
            (List.replicate 40 voicedChunk) ∧
        recordedDuration P0 (fun _ => true) (List.replicate 40 voicedChunk) ≤
          P0.maxDur)) ∧
    ((dynamicRecord P0 (fun i => decide (i = 0))
        (List.replicate 2 voicedChunk)).isSome = true ∧
      recordedDuration P0 (fun i => decide (i = 0))
          (List.replicate 2 voicedChunk) < P0.minDur) := by
  have h : dynLoop P0 (fun _ => true) (List.replicate 40 voicedChunk) 0
      initRecState = ⟨List.replicate 40 voicedChunk, 64 / 25, 0⟩ := by
    norm_num [dynLoop, dynStep, breakNow, isSilentChunk, energySq,
      initRecState, P0, voicedChunk, List.replicate]
  have h2 : dynLoop P0 (fun i => decide (i = 0)) (List.replicate 2 voicedChunk)
      0 initRecState = ⟨[voicedChunk], 8 / 125, 0⟩ := by
    norm_num [dynLoop, dynStep, breakNow, isSilentChunk, energySq,
      initRecState, P0, voicedChunk, List.replicate]
  refine ⟨⟨?_, ?_⟩, ?_, ?_⟩
  · simp only [dynamicRecord, h]
    have hne : List.replicate 40 voicedChunk ≠ ([] : List (List ℚ)) := by
      simp [List.replicate]
    simp [List.isEmpty_iff, hne]
  · unfold recordedDuration
    rw [h]
    norm_num [P0]
  · simp only [dynamicRecord, h2]
    have hne : [voicedChunk] ≠ ([] : List (List ℚ)) := by simp
    simp [List.isEmpty_iff, hne]
  · unfold recordedDuration
    rw [h2]
    norm_num [P0]

/-- C1 (amended, proved): for every utterance captured by the dynamic
recording policy — for every chunk sequence and however the cancellation
(monitoring) flag evolves — the recorded duration is strictly below
`max_recording_duration + chunk_duration` (it can overshoot the maximum by
up to one chunk); and when the flag is never cleared during the recording
and the stream supplies enough frames, the duration is additionally at
least `min(min_recording_duration, max_recording_duration)` (clearing the
flag mid-recording can end a capture below `min_recording_duration`, as
the counterexample shows). -/
theorem c1_amended_duration_bounds (P : RecParams) (mon : ℕ → Bool)
    (frames : List (List ℚ))
    (hsome : (dynamicRecord P mon frames).isSome = true) :
    recordedDuration P mon frames < P.maxDur + P.chunkDur ∧
    ((∀ i, mon i = true) →
      P.maxDur ≤ (frames.length : ℚ) * P.chunkDur →
      min P.minDur P.maxDur ≤ recordedDuration P mon frames) := by
  have hle := readLen_le_length P mon frames 0 initRecState
  have hdur : recordedDuration P mon frames =
      ((readLen P mon frames 0 initRecState : ℕ) : ℚ) * P.chunkDur := by
    unfold recordedDuration
    rw [dynLoop_eq_take]
    exact take_foldl_recTime P frames _ hle
  have hk1 : 1 ≤ readLen P mon frames 0 initRecState := by
    by_contra h0
    have hk0 : readLen P mon frames 0 initRecState = 0 := by omega
    have hbuf : (dynLoop P mon frames 0 initRecState).buffer = [] := by
      rw [dynLoop_eq_take, hk0]
      simp [initRecState]
    rw [dynamicRecord] at hsome
    simp only [hbuf, List.isEmpty_nil, if_true] at hsome
    cases hsome
  constructor
  · obtain ⟨m, hm⟩ : ∃ m, readLen P mon frames 0 initRecState = m + 1 :=
      ⟨readLen P mon frames 0 initRecState - 1, by omega⟩
    have hmle : m ≤ frames.length := by omega
    have hcont := readLen_cont P mon frames 0 initRecState m (by omega)
    have hmrt := hcont.1
    rw [take_foldl_recTime P frames m hmle] at hmrt
    rw [hdur, hm]
    push_cast
    linarith
  · intro hmon hlen
    rcases lt_or_eq_of_le hle with hlt | heq
    · have h4 := readLen_stop P mon frames 0 initRecState hlt
      rw [Nat.zero_add] at h4
      rcases h4 with hL | ⟨_, hbk⟩
      · rcases not_and_or.mp hL with hrt | hmonf
        · have hge : P.maxDur ≤ recordedDuration P mon frames := by
            rw [hdur, ← take_foldl_recTime P frames _ hle]
            exact not_lt.mp hrt
          exact le_trans (min_le_right _ _) hge
        · exact absurd (hmon _) hmonf
      · have hmin := (of_decide_eq_true hbk).1
        rw [take_foldl_recTime P frames _ hle] at hmin
        rw [hdur]
        exact le_trans (min_le_left _ _) hmin
    · rw [hdur, heq]
      exact le_trans (min_le_right _ _) hlen

theorem c1_amended_witness :
    recordedDuration P1 (fun _ => true) [voicedChunk] <
        P1.maxDur + P1.chunkDur ∧
    min P1.minDur P1.maxDur ≤
        recordedDuration P1 (fun _ => true) [voicedChunk] := by
  have h := c1_amended_duration_bounds P1 (fun _ => true) [voicedChunk]
    (by norm_num [dynamicRecord, dynLoop, dynStep, breakNow, isSilentChunk,
      energySq, initRecState, P1, voicedChunk])
  exact ⟨h.1, h.2 (fun _ => rfl) (by norm_num [P1])⟩

/-- C9 (confirmed): `_preprocess_audio_fast` is total at its boundary — an
empty sample array, or one whose samples are all zero, short-circuits to
exactly `sample_rate` zero samples (one second of silence), never reaching
the mean subtraction or the peak-amplitude division. -/
theorem c9_preprocess_guard (sr : ℕ) (audio : List ℚ)
    (h : audio = [] ∨ ∀ x ∈ audio, x = 0) :
    preprocessAudioFast sr audio = List.replicate sr 0 ∧
    (preprocessAudioFast sr audio).length = sr := by
  have hguard : audio.length = 0 ∨
      (audio.all (fun x => decide (x = 0)) = true) := by
    rcases h with h | h
    · left
      simp [h]
    · right
      rw [List.all_eq_true]
      intro x hx
      exact decide_eq_true (h x hx)
  constructor
  · unfold preprocessAudioFast
    rw [if_pos hguard]
  · unfold preprocessAudioFast
    rw [if_pos hguard]
    simp

theorem c9_witness :
    preprocessAudioFast 16000 [] = List.replicate 16000 0 ∧
    (preprocessAudioFast 16000 []).length = 16000 :=
  c9_preprocess_guard 16000 [] (Or.inl rfl)

/-! Helper lemmas for the session trace model. -/

theorem runTrace_cons (cfg : TraceCfg) (s : CState) (e : CEv)
    (evs : List CEv) :
    runTrace cfg s (e :: evs) = runTrace cfg (cstep cfg s e) evs := rfl

theorem cstep_monFrame_not_voiced (cfg : TraceCfg) (s : CState) (f : List ℚ)
    (h : isVoiced cfg.vadThr f = false) : cstep cfg s (.monFrame f) = s := by
  simp [cstep, h]

theorem voicedChunk_voiced : isVoiced (1 / 50) voicedChunk = true := by
  norm_num [isVoiced, energySq, voicedChunk]

theorem cstep_stopped (cfg : TraceCfg) (s : CState) (e : CEv)
    (hm : s.isMonitoring = false)
    (hw : ∀ p ∈ s.workers, p ≠ WPhase.transcribing)
    (hno : isToggleOn e = false) :
    (cstep cfg s e).fired = s.fired ∧
    (cstep cfg s e).isMonitoring = false ∧
    (∀ p ∈ (cstep cfg s e).workers, p ≠ WPhase.transcribing) := by
  have hfin : ∀ i : ℕ,
      (∀ p ∈ (finishWorker s i).workers, p ≠ WPhase.transcribing) := by
    intro i q hq
    rcases List.mem_or_eq_of_mem_set hq with h | h
    · exact hw q h
    · subst h
      intro hcon
      cases hcon
  cases e with
  | monFrame f =>
    by_cases hg : isVoiced cfg.vadThr f = true ∧ s.isAutoRecording = false ∧
        s.isRecording = false
    · cases hdev : cfg.deviceId with
      | some d =>
        have hs : cstep cfg s (.monFrame f) =
            { s with isAutoRecording := true,
                     workers := s.workers ++ [.recording],
                     streams := s.streams + 1 } := by
          simp only [cstep, if_pos hg, hdev]
        rw [hs]
        refine ⟨rfl, hm, ?_⟩
        intro p hp
        rcases List.mem_append.mp hp with hp | hp
        · exact hw p hp
        · rw [List.mem_singleton.mp hp]
          intro hcon
          cases hcon
      | none =>
        have hs : cstep cfg s (.monFrame f) =
            { s with workers := s.workers ++ [.sleeping] } := by
          simp only [cstep, if_pos hg, hdev]
        rw [hs]
        refine ⟨rfl, hm, ?_⟩
        intro p hp
        rcases List.mem_append.mp hp with hp | hp
        · exact hw p hp
        · rw [List.mem_singleton.mp hp]
          intro hcon
          cases hcon
    · have hs : cstep cfg s (.monFrame f) = s := by
        simp only [cstep, if_neg hg]
      rw [hs]
      exact ⟨rfl, hm, hw⟩
  | recDone i audio =>
    cases hgi : s.workers.get? i with
    | none =>
      have hs : cstep cfg s (.recDone i audio) = s := by
        simp only [cstep, hgi]
      rw [hs]
      exact ⟨rfl, hm, hw⟩
    | some p =>
      cases p with
      | recording =>
        cases audio with
        | none =>
          have hs : cstep cfg s (.recDone i none) = finishWorker s i := by
            simp only [cstep, hgi]
          rw [hs]
          exact ⟨rfl, hm, hfin i⟩
        | some a =>
          have hcond : ¬(a.length ≠ 0 ∧ s.isMonitoring = true) := by
            rintro ⟨_, hmm⟩
            rw [hm] at hmm
            cases hmm
          have hs : cstep cfg s (.recDone i (some a)) = finishWorker s i := by
            simp only [cstep, hgi, if_neg hcond]
          rw [hs]
          exact ⟨rfl, hm, hfin i⟩
      | transcribing => exact absurd rfl (hw _ (List.get?_mem hgi))
      | sleeping =>
        have hs : cstep cfg s (.recDone i audio) = s := by
          simp only [cstep, hgi]
        rw [hs]
        exact ⟨rfl, hm, hw⟩
      | dead =>
        have hs : cstep cfg s (.recDone i audio) = s := by
          simp only [cstep, hgi]
        rw [hs]
        exact ⟨rfl, hm, hw⟩
  | transDone i r =>
    cases hgi : s.workers.get? i with
    | none =>
      have hs : cstep cfg s (.transDone i r) = s := by
        simp only [cstep, hgi]
      rw [hs]
      exact ⟨rfl, hm, hw⟩
    | some p =>
      cases p with
      | transcribing => exact absurd rfl (hw _ (List.get?_mem hgi))
      | recording =>
        have hs : cstep cfg s (.transDone i r) = s := by
          simp only [cstep, hgi]
        rw [hs]
        exact ⟨rfl, hm, hw⟩
      | sleeping =>
        have hs : cstep cfg s (.transDone i r) = s := by
          simp only [cstep, hgi]
        rw [hs]
        exact ⟨rfl, hm, hw⟩
      | dead =>
        have hs : cstep cfg s (.transDone i r) = s := by
          simp only [cstep, hgi]
        rw [hs]
        exact ⟨rfl, hm, hw⟩
  | wake i =>
    by_cases hgi : s.workers.get? i = some WPhase.sleeping
    · have hs : cstep cfg s (.wake i) =
          { s with workers := s.workers.set i .dead } := by
        simp only [cstep, if_pos hgi]
      rw [hs]
      refine ⟨rfl, hm, ?_⟩
      intro q hq
      rcases List.mem_or_eq_of_mem_set hq with h | h
      · exact hw q h
      · subst h
        intro hcon
        cases hcon
    · have hs : cstep cfg s (.wake i) = s := by
        simp only [cstep, if_neg hgi]
      rw [hs]
      exact ⟨rfl, hm, hw⟩
  | toggleOff =>
    have hs : cstep cfg s .toggleOff =
        { s with isMonitoring := false, isAutoRecording := false } := by
      simp only [cstep]
    rw [hs]
    exact ⟨rfl, rfl, hw⟩
  | toggleOn => simp [isToggleOn] at hno

theorem cstep_noDevice (cfg : TraceCfg) (hdev : cfg.deviceId = none)
    (s : CState) (e : CEv)
    (hw : ∀ p ∈ s.workers, p = WPhase.sleeping ∨ p = WPhase.dead) :
    (cstep cfg s e).streams = s.streams ∧
    (cstep cfg s e).utterances = s.utterances ∧
    (cstep cfg s e).fired = s.fired ∧
    (∀ p ∈ (cstep cfg s e).workers,
      p = WPhase.sleeping ∨ p = WPhase.dead) := by
  cases e with
  | monFrame f =>
    by_cases hg : isVoiced cfg.vadThr f = true ∧ s.isAutoRecording = false ∧
        s.isRecording = false
    · have hs : cstep cfg s (.monFrame f) =
          { s with workers := s.workers ++ [.sleeping] } := by
        simp only [cstep, if_pos hg, hdev]
      rw [hs]
      refine ⟨rfl, rfl, rfl, ?_⟩
      intro p hp
      rcases List.mem_append.mp hp with hp | hp
      · exact hw p hp
      · exact Or.inl (List.mem_singleton.mp hp)
    · have hs : cstep cfg s (.monFrame f) = s := by
        simp only [cstep, if_neg hg]
      rw [hs]
      exact ⟨rfl, rfl, rfl, hw⟩
  | recDone i audio =>
    cases hgi : s.workers.get? i with
    | none =>
      have hs : cstep cfg s (.recDone i audio) = s := by
        simp only [cstep, hgi]
      rw [hs]
      exact ⟨rfl, rfl, rfl, hw⟩
    | some p =>
      cases p with
      | recording =>
        rcases hw _ (List.get?_mem hgi) with h | h <;> cases h
      | transcribing =>
        rcases hw _ (List.get?_mem hgi) with h | h <;> cases h
      | sleeping =>
        have hs : cstep cfg s (.recDone i audio) = s := by
          simp only [cstep, hgi]
        rw [hs]
        exact ⟨rfl, rfl, rfl, hw⟩
      | dead =>
        have hs : cstep cfg s (.recDone i audio) = s := by
          simp only [cstep, hgi]
        rw [hs]
        exact ⟨rfl, rfl, rfl, hw⟩
  | transDone i r =>
    cases hgi : s.workers.get? i with
    | none =>
      have hs : cstep cfg s (.transDone i r) = s := by
        simp only [cstep, hgi]
      rw [hs]
      exact ⟨rfl, rfl, rfl, hw⟩
    | some p =>
      cases p with
      | recording =>
        have hs : cstep cfg s (.transDone i r) = s := by
          simp only [cstep, hgi]
        rw [hs]
        exact ⟨rfl, rfl, rfl, hw⟩
      | transcribing =>
        rcases hw _ (List.get?_mem hgi) with h | h <;> cases h
      | sleeping =>
        have hs : cstep cfg s (.transDone i r) = s := by
          simp only [cstep, hgi]
        rw [hs]
        exact ⟨rfl, rfl, rfl, hw⟩
      | dead =>
        have hs : cstep cfg s (.transDone i r) = s := by
          simp only [cstep, hgi]
        rw [hs]
        exact ⟨rfl, rfl, rfl, hw⟩
  | wake i =>
    by_cases hgi : s.workers.get? i = some WPhase.sleeping
    · have hs : cstep cfg s (.wake i) =
          { s with workers := s.workers.set i .dead } := by
        simp only [cstep, if_pos hgi]
      rw [hs]
      refine ⟨rfl, rfl, rfl, ?_⟩
      intro q hq
      rcases List.mem_or_eq_of_mem_set hq with h | h
      · exact hw q h
      · exact Or.inr h
    · have hs : cstep cfg s (.wake i) = s := by
        simp only [cstep, if_neg hgi]
      rw [hs]
      exact ⟨rfl, rfl, rfl, hw⟩
  | toggleOff =>
    have hs : cstep cfg s .toggleOff =
        { s with isMonitoring := false, isAutoRecording := false } := by
      simp only [cstep]
    rw [hs]
    exact ⟨rfl, rfl, rfl, hw⟩
  | toggleOn =>
    by_cases hmon : s.isMonitoring = true
    · have hs : cstep cfg s .toggleOn = s := by
        simp only [cstep, if_pos hmon]
      rw [hs]
      exact ⟨rfl, rfl, rfl, hw⟩
    · have hs : cstep cfg s .toggleOn =
          { s with isMonitoring := true,
                   monitorThreads := s.monitorThreads + 1 } := by
        simp only [cstep, if_neg hmon]
      rw [hs]
      exact ⟨rfl, rfl, rfl, hw⟩

theorem runTrace_silent_frames (cfg : TraceCfg) (frames : List (List ℚ)) :
    ∀ s : CState, (∀ f ∈ frames, isVoiced cfg.vadThr f = false) →
      runTrace cfg s (frames.map CEv.monFrame) = s := by
  induction frames with
  | nil => intro s _; rfl
  | cons f rest ih =>
    intro s h
    rw [List.map_cons, runTrace_cons,
      cstep_monFrame_not_voiced cfg s f (h f (List.mem_cons_self f rest))]
    exact ih s (fun g hg => h g (List.mem_cons_of_mem f hg))

/-- C7 (confirmed): for every frame sequence in which each frame's energy
`sqrt(mean(sample^2))` stays at or below `vad_threshold`, the monitor loop
detects no onset and leaves the session state untouched: no recording
worker is spawned, no recorder stream is opened, zero utterances are
produced and the transcription engine is never invoked. -/
theorem c7_no_onset_below_threshold (cfg : TraceCfg)
    (frames : List (List ℚ))
    (h : ∀ f ∈ frames, Real.sqrt (energySq f) ≤ (cfg.vadThr : ℝ)) :
    runTrace cfg initCState (frames.map CEv.monFrame) = initCState ∧
    (runTrace cfg initCState (frames.map CEv.monFrame)).utterances = 0 ∧
    (runTrace cfg initCState (frames.map CEv.monFrame)).workers = [] ∧
    (runTrace cfg initCState (frames.map CEv.monFrame)).streams = 0 := by
  have hrun : runTrace cfg initCState (frames.map CEv.monFrame) =
      initCState := by
    apply runTrace_silent_frames
    intro f hf
    rw [Bool.eq_false_iff]
    intro hv
    exact absurd ((isVoiced_iff cfg.vadThr f).mp hv) (not_lt.mpr (h f hf))
  rw [hrun]
  exact ⟨rfl, rfl, rfl, rfl⟩

theorem c7_witness :
    runTrace cfgA initCState ([[0], [0]].map CEv.monFrame) = initCState ∧
    (runTrace cfgA initCState ([[0], [0]].map CEv.monFrame)).utterances
      = 0 ∧
    (runTrace cfgA initCState ([[0], [0]].map CEv.monFrame)).workers
      = [] ∧
    (runTrace cfgA initCState ([[0], [0]].map CEv.monFrame)).streams
      = 0 :=
  c7_no_onset_below_threshold cfgA [[0], [0]] (by
    intro f hf
    have h0 : energySq f = 0 := by
      rcases List.mem_cons.mp hf with rfl | hf
      · norm_num [energySq]
      · rcases List.mem_cons.mp hf with rfl | hf
        · norm_num [energySq]
        · cases hf
    rw [h0]
    norm_num [cfgA])

/-- C3 (code_bug): evaluation at the failing input.  The specification
(and the source's own comment on line 511, "wait a short while before
allowing the next recording") intend the `cooldown_time` to suppress
re-triggering, but the `finally` block clears `is_auto_recording` before
sleeping, so a voiced frame arriving during the cooldown sleep passes the
gate and spawns a second recording worker: after one complete utterance
(worker 0 now sleeping out its cooldown), a voiced frame immediately
starts worker 1 and opens a second recorder stream. -/
theorem c3_cooldown_retrigger :
    (runTrace cfgA initCState
        [.monFrame voicedChunk, .recDone 0 (some voicedChunk),
         .transDone 0 (.ok "hi"), .monFrame voicedChunk]).workers =
      [WPhase.sleeping, WPhase.recording] ∧
    (runTrace cfgA initCState
        [.monFrame voicedChunk, .recDone 0 (some voicedChunk),
         .transDone 0 (.ok "hi"), .monFrame voicedChunk]).streams = 2 := by
  refine ⟨?_, ?_⟩ <;>
    · norm_num [runTrace, cstep, cfgA, initCState, isVoiced, energySq,
        finishWorker, finalText, voicedChunk, List.foldl]
      decide

/-- C4 (counterexample): the claim that after `stop()` the callback never
fires is false for a worker already inside the blocking transcription
call.  In this trace the worker passes its post-recording monitoring check
while monitoring is still on, `stop()` (toggleOff) happens during
transcription, and the transcript is still delivered: the callback fires
with "hello" after the stop. -/
theorem c4_counterexample :
    (runTrace cfgA initCState
        [.monFrame voicedChunk, .recDone 0 (some voicedChunk), .toggleOff,
         .transDone 0 (.ok "hello")]).fired = ["hello"] := by
  norm_num [runTrace, cstep, cfgA, initCState, isVoiced, energySq,
    finishWorker, finalText, voicedChunk, List.foldl]
  decide

/-- C4 (amended, proved): after `stop()` clears the monitoring flag, no
callback fires on behalf of any worker that had not yet passed its
post-recording monitoring check (still recording, or earlier): in any
continuation without a restart, starting from a state with the flag
cleared and no worker in the transcription phase, the list of delivered
callback texts never grows.  (A worker already inside the blocking
transcription call when `stop()` happens may still fire once, as the
counterexample shows — the flag is only consulted before transcription.) -/
theorem c4_amended_no_callback_after_stop (cfg : TraceCfg) (s : CState)
    (evs : List CEv) (hm : s.isMonitoring = false)
    (hw : ∀ p ∈ s.workers, p ≠ WPhase.transcribing)
    (hno : ∀ e ∈ evs, isToggleOn e = false) :
    (runTrace cfg s evs).fired = s.fired := by
  induction evs generalizing s with
  | nil => rfl
  | cons e rest ih =>
    have h := cstep_stopped cfg s e hm hw (hno e (List.mem_cons_self e rest))
    rw [runTrace_cons,
      ih (cstep cfg s e) h.2.1 h.2.2
        (fun e' he' => hno e' (List.mem_cons_of_mem e he'))]
    exact h.1

theorem c4_amended_witness :
    (runTrace cfgA ⟨false, false, false, [WPhase.recording], 1, 0, [], 1⟩
        [.recDone 0 (some voicedChunk), .transDone 0 (.ok "zz"),
         .monFrame voicedChunk]).fired = [] :=
  c4_amended_no_callback_after_stop cfgA
    ⟨false, false, false, [WPhase.recording], 1, 0, [], 1⟩
    [.recDone 0 (some voicedChunk), .transDone 0 (.ok "zz"),
     .monFrame voicedChunk] rfl
    (by
      intro p hp
      rw [List.mem_singleton.mp hp]
      intro h
      cases h)
    (by
      intro e he
      rcases List.mem_cons.mp he with rfl | he
      · rfl
      · rcases List.mem_cons.mp he with rfl | he
        · rfl
        · rw [List.mem_singleton.mp he]
          rfl)

/-- C5 (confirmed): a transcription-engine exception is treated as an
empty transcript: the callback does not fire for that utterance, the
monitoring flag is untouched, and the failed worker proceeds to its
cooldown (auto-recording flag cleared, phase sleeping) exactly as on
success; the appended concrete continuation shows a subsequent utterance
being captured, transcribed and delivered normally after the failure. -/
theorem c5_transcription_failure_recovery :
    (∀ (cfg : TraceCfg) (s : CState) (i : ℕ),
        s.workers.get? i = some WPhase.transcribing →
        (cstep cfg s (.transDone i (.error ()))).fired = s.fired ∧
        (cstep cfg s (.transDone i (.error ()))).isMonitoring =
          s.isMonitoring ∧
        (cstep cfg s (.transDone i (.error ()))).workers =
          s.workers.set i .sleeping ∧
        (cstep cfg s (.transDone i (.error ()))).isAutoRecording
          = false) ∧
    ((runTrace cfgA initCState
        [.monFrame voicedChunk, .recDone 0 (some voicedChunk),
         .transDone 0 (.error ()), .wake 0, .monFrame voicedChunk,
         .recDone 1 (some voicedChunk),
         .transDone 1 (.ok "hi")]).fired = ["hi"] ∧
      (runTrace cfgA initCState
        [.monFrame voicedChunk, .recDone 0 (some voicedChunk),
         .transDone 0 (.error ()), .wake 0, .monFrame voicedChunk,
         .recDone 1 (some voicedChunk),
         .transDone 1 (.ok "hi")]).utterances = 2) := by
  constructor
  · intro cfg s i hgi
    have hs : cstep cfg s (.transDone i (.error ())) = finishWorker s i := by
      simp only [cstep, hgi]
      rw [if_neg]
      rintro ⟨hne, _⟩
      exact hne rfl
    rw [hs]
    exact ⟨rfl, rfl, rfl, rfl⟩
  · refine ⟨?_, ?_⟩ <;>
      · norm_num [runTrace, cstep, cfgA, initCState, isVoiced, energySq,
          finishWorker, finalText, voicedChunk, List.foldl]
        decide

theorem c5_witness :
    (cstep cfgA ⟨true, true, false, [WPhase.transcribing], 1, 1, [], 1⟩
        (.transDone 0 (.error ()))).fired = [] ∧
    (cstep cfgA ⟨true, true, false, [WPhase.transcribing], 1, 1, [], 1⟩
        (.transDone 0 (.error ()))).isMonitoring = true ∧
    (cstep cfgA ⟨true, true, false, [WPhase.transcribing], 1, 1, [], 1⟩
        (.transDone 0 (.error ()))).workers =
      [WPhase.transcribing].set 0 WPhase.sleeping ∧
    (cstep cfgA ⟨true, true, false, [WPhase.transcribing], 1, 1, [], 1⟩
        (.transDone 0 (.error ()))).isAutoRecording = false :=
  c5_transcription_failure_recovery.1 cfgA
    ⟨true, true, false, [WPhase.transcribing], 1, 1, [], 1⟩ 0 rfl

/-- C6 (confirmed): for a successfully completed utterance (a worker in
the transcription phase whose engine call returned a non-empty
transcript) with a registered callback, exactly one callback fires: the
firing event appends exactly one text and moves the worker to its
cooldown phase, and a worker in any other phase never fires; the
delivered text is the refined text when refinement succeeds and the
unrefined (or locally punctuated) input when the refiner raises, so no
refinement error ever propagates to the caller. -/
theorem c6_callback_exactly_once :
    (∀ (cfg : TraceCfg) (s : CState) (i : ℕ) (t : String),
        s.workers.get? i = some WPhase.transcribing → t ≠ "" →
        cfg.hasCallback = true →
        (cstep cfg s (.transDone i (.ok t))).fired =
          s.fired ++ [finalText cfg t] ∧
        (cstep cfg s (.transDone i (.ok t))).workers =
          s.workers.set i .sleeping) ∧
    (∀ (cfg : TraceCfg) (s : CState) (i : ℕ) (r : Except Unit String),
        s.workers.get? i ≠ some WPhase.transcribing →
        (cstep cfg s (.transDone i r)).fired = s.fired) ∧
    (∀ (cfg : TraceCfg) (t u : String), cfg.llmEnabled = true →
        cfg.llm t = .ok u → finalText cfg t = u) ∧
    (∀ (cfg : TraceCfg) (t : String), cfg.llmEnabled = true →
        cfg.llm t = .error () → finalText cfg t = t) ∧
    (∀ (cfg : TraceCfg) (t u : String), cfg.llmEnabled = false →
        cfg.localPunctAvailable = true → cfg.punct t = .ok u →
        finalText cfg t = u) ∧
    (∀ (cfg : TraceCfg) (t : String), cfg.llmEnabled = false →
        cfg.localPunctAvailable = true → cfg.punct t = .error () →
        finalText cfg t = t) := by
  refine ⟨?_, ?_, ?_, ?_, ?_, ?_⟩
  · intro cfg s i t hgi ht hcb
    have hs : cstep cfg s (.transDone i (.ok t)) =
        finishWorker { s with fired := s.fired ++ [finalText cfg t] } i := by
      simp only [cstep, hgi, if_pos (And.intro ht hcb)]
    rw [hs]
    exact ⟨rfl, rfl⟩
  · intro cfg s i r hne
    cases hgi : s.workers.get? i with
    | none =>
      have hs : cstep cfg s (.transDone i r) = s := by
        simp only [cstep, hgi]
      rw [hs]
    | some p =>
      cases p with
      | transcribing => exact absurd hgi hne
      | recording =>
        have hs : cstep cfg s (.transDone i r) = s := by
          simp only [cstep, hgi]
        rw [hs]
      | sleeping =>
        have hs : cstep cfg s (.transDone i r) = s := by
          simp only [cstep, hgi]
        rw [hs]
      | dead =>
        have hs : cstep cfg s (.transDone i r) = s := by
          simp only [cstep, hgi]
        rw [hs]
  · intro cfg t u hen hok
    simp [finalText, optimizeTextWithLlm, hen, hok]
  · intro cfg t hen herr
    simp [finalText, optimizeTextWithLlm, hen, herr]
  · intro cfg t u hen hloc hok
    simp [finalText, addLocalPunctuation, hen, hloc, hok]
  · intro cfg t hen hloc herr
    simp [finalText, addLocalPunctuation, hen, hloc, herr]

theorem c6_witness :
    ((cstep cfgA ⟨true, true, false, [WPhase.transcribing], 1, 1, [], 1⟩
        (.transDone 0 (.ok "hi"))).fired = [finalText cfgA "hi"] ∧
     (cstep cfgA ⟨true, true, false, [WPhase.transcribing], 1, 1, [], 1⟩
        (.transDone 0 (.ok "hi"))).workers =
       [WPhase.transcribing].set 0 WPhase.sleeping) ∧
    (cstep cfgA ⟨true, false, false, [WPhase.sleeping], 1, 1, [], 1⟩
        (.transDone 0 (.ok "hi"))).fired = [] :=
  ⟨c6_callback_exactly_once.1 cfgA
      ⟨true, true, false, [WPhase.transcribing], 1, 1, [], 1⟩ 0 "hi" rfl
      (by decide) rfl,
   c6_callback_exactly_once.2.1 cfgA
      ⟨true, false, false, [WPhase.sleeping], 1, 1, [], 1⟩ 0 (.ok "hi")
      (by decide)⟩

/-- C8 (confirmed): `_setup_audio_device` selects, in order, the
user-configured device id if it is among the currently enumerable input
devices, otherwise the platform default input device if enumerable,
otherwise the first enumerable input device, otherwise none — proved as a
refinement of the spec-worded selection chain, plus: with no enumerable
input device the resolver yields none, and a session whose resolved
device is none never opens a recorder input stream and never hands an
utterance to the transcription engine (the worker fails fast at its
device check). -/
theorem c8_device_resolution :
    (∀ env : DeviceEnv, setupAudioDevice env = specDeviceSelection env) ∧
    (∀ env : DeviceEnv, inputDevices env.devices = [] →
        setupAudioDevice env = none) ∧
    (∀ (cfg : TraceCfg) (evs : List CEv), cfg.deviceId = none →
        (runTrace cfg initCState evs).streams = 0 ∧
        (runTrace cfg initCState evs).utterances = 0) := by
  refine ⟨?_, ?_, ?_⟩
  · intro env
    simp only [setupAudioDevice, specDeviceSelection]
    by_cases he : ((inputDevices env.devices).map Int.ofNat).isEmpty = true
    · have hnil : (inputDevices env.devices).map Int.ofNat = [] :=
        List.isEmpty_iff.mp he
      rw [if_pos he]
      cases hc : env.configured with
      | none =>
        cases hd : env.defaultDev with
        | error e => simp [hnil]
        | ok d => simp [hnil]
      | some mc =>
        cases mc with
        | none =>
          cases hd : env.defaultDev with
          | error e => simp [hnil]
          | ok d => simp [hnil]
        | some c =>
          cases hd : env.defaultDev with
          | error e => simp [hnil]
          | ok d => simp [hnil]
    · rw [if_neg he]
      cases hc : env.configured with
      | none =>
        cases hd : env.defaultDev with
        | error e => simp
        | ok d =>
          by_cases hm : d ∈ (inputDevices env.devices).map Int.ofNat
          · simp [hm]
          · simp [hm]
      | some mc =>
        cases mc with
        | none =>
          cases hd : env.defaultDev with
          | error e => simp
          | ok d =>
            by_cases hm : d ∈ (inputDevices env.devices).map Int.ofNat
            · simp [hm]
            · simp [hm]
        | some c =>
          by_cases hmc : c ∈ (inputDevices env.devices).map Int.ofNat
          · simp [hmc]
          · cases hd : env.defaultDev with
            | error e => simp [hmc]
            | ok d =>
              by_cases hm : d ∈ (inputDevices env.devices).map Int.ofNat
              · simp [hmc, hm]
              · simp [hmc, hm]
  · intro env h
    simp [setupAudioDevice, h]
  · intro cfg evs hdev
    have hgen : ∀ (l : List CEv) (s : CState),
        (∀ p ∈ s.workers, p = WPhase.sleeping ∨ p = WPhase.dead) →
        (runTrace cfg s l).streams = s.streams ∧
        (runTrace cfg s l).utterances = s.utterances := by
      intro l
      induction l with
      | nil => intro s _; exact ⟨rfl, rfl⟩
      | cons e rest ih =>
        intro s hw
        have h := cstep_noDevice cfg hdev s e hw
        rw [runTrace_cons]
        have h2 := ih (cstep cfg s e) h.2.2.2
        exact ⟨h2.1.trans h.1, h2.2.trans h.2.1⟩
    have h := hgen evs initCState (by
      intro p hp
      simp [initCState] at hp)
    exact ⟨h.1, h.2⟩

theorem c8_witness :
    setupAudioDevice ⟨[0, 2], some (some 1), .error ()⟩ =
      specDeviceSelection ⟨[0, 2], some (some 1), .error ()⟩ ∧
    setupAudioDevice ⟨[], none, .error ()⟩ = none ∧
    ((runTrace cfgNoDevice initCState [.monFrame voicedChunk]).streams
        = 0 ∧
     (runTrace cfgNoDevice initCState
        [.monFrame voicedChunk]).utterances = 0) :=
  ⟨c8_device_resolution.1 ⟨[0, 2], some (some 1), .error ()⟩,
   c8_device_resolution.2.1 ⟨[], none, .error ()⟩ rfl,
   c8_device_resolution.2.2 cfgNoDevice [.monFrame voicedChunk] rfl⟩

/-- C10 (confirmed): while the monitoring flag is set, a second call to
`start_continuous_recognition` returns immediately: it spawns no
additional monitor thread and leaves the entire session state
unchanged. -/
theorem c10_start_idempotent (cfg : TraceCfg) (s : CState)
    (h : s.isMonitoring = true) :
    cstep cfg s .toggleOn = s ∧
    (cstep cfg s .toggleOn).monitorThreads = s.monitorThreads := by
  have hs : cstep cfg s .toggleOn = s := by simp [cstep, h]
  exact ⟨hs, by rw [hs]⟩

theorem c10_witness :
    cstep cfgA initCState .toggleOn = initCState ∧
    (cstep cfgA initCState .toggleOn).monitorThreads =
      initCState.monitorThreads :=
  c10_start_idempotent cfgA initCState rfl
